import Mathlib

/-!
Verification of the Chkobba game engine (src/game_logic.py, src/config.py and the
turn-timeout handler of src/app.py) against its natural-language specification.

The Python code is shallowly embedded: every mutable method of `GameState` becomes a
pure function from the old state to the new state.  The only randomness in the program
is `random.shuffle` inside `Deck.__init__`; wherever the source constructs a fresh
`Deck()` the embedding takes the shuffled card list as an explicit argument, and the
reachability relation quantifies it over permutations of the full 40-card deck.
-/

namespace Chkobba

/-- The ten ranks of the 40-card Italian deck (game_logic.Card.RANKS). -/
inductive Rank where
  | A | r2 | r3 | r4 | r5 | r6 | r7 | Q | J | K
deriving DecidableEq, Repr, Inhabited

/-- The four suits (game_logic.Card.SUITS, in the source's iteration order H, D, C, S). -/
inductive Suit where
  | H | D | C | S
deriving DecidableEq, Repr, Inhabited

/-- game_logic.Card.VALUES: A=1, 2..7 face value, Q=8, J=9, K=10. -/
def Rank.value : Rank → Nat
  | .A => 1
  | .r2 => 2
  | .r3 => 3
  | .r4 => 4
  | .r5 => 5
  | .r6 => 6
  | .r7 => 7
  | .Q => 8
  | .J => 9
  | .K => 10

/-- The rank character of a card code such as "2H". -/
def Rank.asChar : Rank → Char
  | .A => 'A'
  | .r2 => '2'
  | .r3 => '3'
  | .r4 => '4'
  | .r5 => '5'
  | .r6 => '6'
  | .r7 => '7'
  | .Q => 'Q'
  | .J => 'J'
  | .K => 'K'

/-- The suit character of a card code. -/
def Suit.asChar : Suit → Char
  | .H => 'H'
  | .D => 'D'
  | .C => 'C'
  | .S => 'S'

/-- game_logic.Card.  The source's constructor rejects rank/suit outside the fixed
sets, so a card is exactly a pair of a valid rank and a valid suit. -/
structure Card where
  rank : Rank
  suit : Suit
deriving DecidableEq, Repr, Inhabited

/-- Card.value. -/
def Card.value (c : Card) : Nat := c.rank.value

/-- Card.code, the two-character wire form such as "7D".  The source compares and
hashes cards by code; code equality coincides with structural equality here. -/
def Card.code (c : Card) : String := String.mk [c.rank.asChar, c.suit.asChar]

/-- Card.RANKS in source order. -/
def RANKS : List Rank := [.A, .r2, .r3, .r4, .r5, .r6, .r7, .Q, .J, .K]

/-- Card.SUITS in source (insertion) order. -/
def SUITS : List Suit := [.H, .D, .C, .S]

/-- Deck._create_deck: for suit in SUITS, for rank in RANKS — the unshuffled
40-card deck. -/
def fullDeck : List Card := SUITS.flatMap (fun s => RANKS.map (fun r => ⟨r, s⟩))

/-- Deck.draw(count): the source pops `count` cards off the END of the card list
(fewer if the deck runs out), returning them newest-first.  This is the closed form
of that pop loop: the drawn cards are the last `count` cards in reverse order, the
remainder is the untouched prefix.  Returns (drawn, remaining). -/
def deckDraw (count : Nat) (cards : List Card) : List Card × List Card :=
  (cards.reverse.take count, (cards.reverse.drop count).reverse)

/-- One player record (the dict created in GameState.__init__). -/
structure Player where
  hand : List Card := []
  score : Nat := 0
  chkobba_count : Nat := 0
  captured_cards : List Card := []
  round_captures : List Card := []
deriving DecidableEq, Repr, Inhabited

/-- game_logic.GameState.  `deck` is the remaining card list of the current Deck.
The append-only move_history is not modelled: no embedded operation reads it. -/
structure GState where
  num_players : Nat
  deck : List Card
  players : List Player
  table : List Card := []
  current_player : Nat := 0
  round_number : Nat := 1
  is_finished : Bool := false
  winner : Option Nat := none
  last_capturer : Option Nat := none
deriving DecidableEq, Repr, Inhabited

/-- self.players[i].  Out-of-range access (impossible in reachable states, where the
players list always has num_players entries) yields the default record. -/
def getPlayer (s : GState) (i : Nat) : Player := s.players.getD i default

/-- self.players[i] = p. -/
def setPlayer (s : GState) (i : Nat) (p : Player) : GState :=
  { s with players := s.players.set i p }

/-- config.Config.WINNING_SCORE. -/
def WINNING_SCORE : Nat := 21

/-- app.create_room: `if target_score not in [11, 21]` — the target scores a room may
configure (stored per room in room_settings, default 21). -/
def allowed_target_scores : List Nat := [11, 21]

/-- GameState._find_captures(card) over a given table.  Single-card (1-to-1) matches
first; sum combinations of size 2..len(table) only when no 1-to-1 match exists.
`itertools.combinations(table, r)` enumerates the length-r subsequences of the table
list, embedded via `List.sublistsLen`; the enumeration order differs from the
source's, but every use of the result is order-insensitive (membership / any). -/
def find_captures (card : Card) (table : List Card) : List (List Card) :=
  let singles := (table.filter (fun t => t.value == card.value)).map (fun t => [t])
  if singles.isEmpty then
    (List.range' 2 (table.length - 1)).flatMap (fun r =>
      (List.sublistsLen r table).filter (fun combo =>
        (combo.map Card.value).sum == card.value))
  else singles

/-- GameState._has_single_card_match(card): some table card has the same value. -/
def has_single_card_match (card : Card) (table : List Card) : Bool :=
  table.any (fun t => t.value == card.value)

/-- GameState._has_non_capturing_card(player_idx): some card of that player's hand
has no possible capture on the current table. -/
def has_non_capturing_card (s : GState) (player_idx : Nat) : Bool :=
  (getPlayer s player_idx).hand.any (fun c => (find_captures c s.table).isEmpty)

/-- The structured rejection reasons of GameState.play_card / _validate_capture, one
constructor per `return False, message` site (respectively per early-return dict). -/
inductive CaptureError where
  | notYourTurn
  | cardNotInHand
  | captureMandatory
  | comboNotAllowed
  | cardNotOnTable (c : Card)
  | captureSumMismatch
  | invalidCombination
deriving DecidableEq, Repr

/-- GameState._validate_capture(card, captured_cards, player_idx).  `none` means the
play is valid; `some e` is the source's `(False, message)` rejection.  The source's
`sorted(codes) == sorted(codes)` comparison in the valid-combination check is
multiset equality of the code lists, embedded as `List.isPerm`. -/
def validate_capture (s : GState) (card : Card) (captured : List Card)
    (player_idx : Nat) : Option CaptureError :=
  let possible := find_captures card s.table
  if captured = [] then
    if possible ≠ [] then
      if has_non_capturing_card s player_idx then none
      else some .captureMandatory
    else none
  else
    if has_single_card_match card s.table ∧ 1 < captured.length then
      some .comboNotAllowed
    else
      let table_codes := s.table.map Card.code
      match captured.find? (fun c => !(table_codes.contains c.code)) with
      | some c => some (.cardNotOnTable c)
      | none =>
        if (captured.map Card.value).sum ≠ card.value then some .captureSumMismatch
        else if !(possible.any (fun combo =>
            (combo.map Card.code).isPerm (captured.map Card.code))) then
          some .invalidCombination
        else none

/-- The state mutation of a validated play (GameState.play_card lines 224..248, in
source statement order): remove the card from the hand; if capturing, move the
captured cards into the capture piles, record the last capturer and remove them from
the table; flag chkobba iff the table is now empty and something was captured,
incrementing that seat's counter; a non-capturing card joins the table instead.
Returns (new state, is_chkobba, is_haya). -/
def apply_move (s : GState) (player_idx : Nat) (card : Card) (captured : List Card) :
    GState × Bool × Bool :=
  let p := getPlayer s player_idx
  let p1 := { p with hand := p.hand.erase card }
  let s1 := setPlayer s player_idx p1
  let s2 :=
    if captured ≠ [] then
      let p2 := { p1 with captured_cards := p1.captured_cards ++ captured,
                          round_captures := p1.round_captures ++ captured }
      { setPlayer s1 player_idx p2 with
          last_capturer := some player_idx,
          table := captured.foldl (fun t c => t.erase c) s1.table }
    else s1
  let is_chkobba := decide (s2.table = [] ∧ captured ≠ [])
  let is_haya := captured.any (fun c => c.rank == Rank.r7 && c.suit == Suit.D)
  let s3 :=
    if is_chkobba then
      let q := getPlayer s2 player_idx
      setPlayer s2 player_idx { q with chkobba_count := q.chkobba_count + 1 }
    else s2
  let s4 := if captured = [] then { s3 with table := s3.table ++ [card] } else s3
  (s4, is_chkobba, is_haya)

/-- The seat-order dealing loop shared by _setup_game and _deal_new_hands: each
player in turn draws 3 cards, which replace that player's hand. -/
def dealHandsAux : List Player → List Card → List Player × List Card
  | [], deck => ([], deck)
  | p :: ps, deck =>
    let dr := deckDraw 3 deck
    let rest := dealHandsAux ps dr.2
    ({ p with hand := dr.1 } :: rest.1, rest.2)

/-- GameState._deal_new_hands: if the deck still holds at least 3 cards per player,
replace every player's hand with 3 freshly drawn cards (in seat order) and report
success. -/
def deal_new_hands (s : GState) : Bool × GState :=
  if s.num_players * 3 ≤ s.deck.length then
    let res := dealHandsAux s.players s.deck
    (true, { s with players := res.1, deck := res.2 })
  else (false, s)

/-- all hands empty, as tested by GameState._check_and_deal_cards. -/
def all_hands_empty (s : GState) : Bool :=
  s.players.all (fun p => p.hand.isEmpty)

/-- GameState._setup_game: deal 3 cards to each player in seat order, then 4 cards
to the table. -/
def setup_game (s : GState) : GState :=
  let res := dealHandsAux s.players s.deck
  let tbl := deckDraw 4 res.2
  { s with players := res.1, deck := tbl.2, table := tbl.1 }

/-- The per-seat round-captured-card counts (the card_counts dict of
_calculate_round_scores, keyed by seat index 0..num_players-1). -/
def round_capture_count (s : GState) (i : Nat) : Nat :=
  (getPlayer s i).round_captures.length

/-- The per-seat diamond counts of _calculate_round_scores. -/
def diamond_count (s : GState) (i : Nat) : Nat :=
  ((getPlayer s i).round_captures.filter (fun c => c.suit == Suit.D)).length

/-- Scoring criterion 1 of _calculate_round_scores (most cards): one point to the
unique seat holding the maximum round-capture count, only if that count is ≥ 21 and
no other seat ties it.  Returned as a per-seat point vector. -/
def most_cards_award (s : GState) : List Nat :=
  let counts := (List.range s.num_players).map (round_capture_count s)
  let maxCards := counts.foldl max 0
  let winners := (List.range counts.length).filter (fun i => counts.getD i 0 == maxCards)
  if winners.length = 1 ∧ 21 ≤ counts.getD (winners.getD 0 0) 0 then
    (List.replicate s.num_players 0).set (winners.getD 0 0) 1
  else List.replicate s.num_players 0

/-- Scoring criterion 2 (most diamonds): as criterion 1, with the threshold
"count > 0" instead of "count ≥ 21". -/
def most_diamonds_award (s : GState) : List Nat :=
  let counts := (List.range s.num_players).map (diamond_count s)
  let maxDiamonds := counts.foldl max 0
  let winners := (List.range counts.length).filter (fun i => counts.getD i 0 == maxDiamonds)
  if winners.length = 1 ∧ 0 < counts.getD (winners.getD 0 0) 0 then
    (List.replicate s.num_players 0).set (winners.getD 0 0) 1
  else List.replicate s.num_players 0

/-- The 7 of Diamonds. -/
def haya_card : Card := ⟨.r7, .D⟩

/-- The 7 of Clubs. -/
def dinari_card : Card := ⟨.r7, .C⟩

/-- Scoring criterion 3 (haya): one point to every seat whose round captures contain
the 7 of Diamonds. -/
def haya_award (s : GState) : List Nat :=
  (List.range s.num_players).map (fun i =>
    if haya_card ∈ (getPlayer s i).round_captures then 1 else 0)

/-- Scoring criterion 4 (dinari): one point per seat holding the 7 of Clubs. -/
def dinari_award (s : GState) : List Nat :=
  (List.range s.num_players).map (fun i =>
    if dinari_card ∈ (getPlayer s i).round_captures then 1 else 0)

/-- Scoring criterion 5: one point per chkobba. -/
def chkobba_award (s : GState) : List Nat :=
  (List.range s.num_players).map (fun i => (getPlayer s i).chkobba_count)

/-- GameState._calculate_round_scores: the five criteria accumulate into one
per-seat round-score vector (the source's round_scores dict over seats
0..num_players-1), here as the pointwise sum of the five award vectors. -/
def calculate_round_scores (s : GState) : List Nat :=
  List.zipWith (fun a b => a + b) (most_cards_award s)
    (List.zipWith (fun a b => a + b) (most_diamonds_award s)
      (List.zipWith (fun a b => a + b) (haya_award s)
        (List.zipWith (fun a b => a + b) (dinari_award s) (chkobba_award s))))

/-- GameState.end_round lines 350..354: if the table is non-empty and someone
captured this round, the remaining table cards go to the last capturer's piles. -/
def award_table_to_last_capturer (s : GState) : GState :=
  match s.last_capturer with
  | some lc =>
    if s.table ≠ [] then
      let p := getPlayer s lc
      { setPlayer s lc { p with captured_cards := p.captured_cards ++ s.table,
                                round_captures := p.round_captures ++ s.table } with
          table := [] }
    else s
  | none => s

/-- GameState.end_round lines 359..365: add each seat's round score to its
cumulative score (in seat order), finishing the game, with that seat as winner,
whenever the updated total reaches Config.WINNING_SCORE. -/
def add_round_scores (s : GState) (scores : List Nat) : GState :=
  (List.range s.num_players).foldl (fun st idx =>
    let p := getPlayer st idx
    let p1 := { p with score := p.score + scores.getD idx 0 }
    let st1 := setPlayer st idx p1
    if WINNING_SCORE ≤ p1.score then
      { st1 with is_finished := true, winner := some idx }
    else st1) s

/-- GameState.end_round lines 368..386 (game not finished): advance the round
number, clear table and last capturer, install the freshly shuffled new deck,
reset every seat's hand / round captures / chkobba counter, and re-run setup. -/
def reset_for_next_round (s : GState) (freshDeck : List Card) : GState :=
  setup_game { s with
    round_number := s.round_number + 1,
    table := [],
    last_capturer := none,
    deck := freshDeck,
    players := s.players.map (fun p =>
      { p with hand := [], round_captures := [], chkobba_count := 0 }) }

/-- GameState.end_round: award leftover table cards to the last capturer (if any
capture happened); compute and add round scores; finish the game when a seat's
cumulative score reaches Config.WINNING_SCORE; otherwise reset the round data,
install the fresh deck (the source's `Deck()`) and re-run setup.
Returns (round scores, new state). -/
def end_round (s : GState) (freshDeck : List Card) : List Nat × GState :=
  let s1 := award_table_to_last_capturer s
  let scores := calculate_round_scores s1
  let s2 := add_round_scores s1 scores
  let s3 := if s2.is_finished then s2 else reset_for_next_round s2 freshDeck
  (scores, s3)

/-- GameState._check_and_deal_cards: after a play, if every hand is empty either
redeal (deck non-empty) or end the round (deck exhausted).  Returns the source's
boolean (note: `True` is returned whenever the redeal branch is taken, even if
_deal_new_hands found too few cards and dealt nothing) and the new state. -/
def check_and_deal_cards (s : GState) (freshDeck : List Card) : Bool × GState :=
  if all_hands_empty s then
    if 0 < s.deck.length then
      (true, (deal_new_hands s).2)
    else
      (false, (end_round s freshDeck).2)
  else (false, s)

/-- The result dict of GameState.play_card; the source's failure messages are
represented by the `error` field. -/
structure PlayResult where
  success : Bool
  is_chkobba : Bool := false
  is_haya : Bool := false
  new_cards_dealt : Bool := false
  error : Option CaptureError := none
deriving DecidableEq, Repr

/-- GameState.play_card(player_idx, card, captured_cards): turn check, hand check,
capture validation, then the mutation of `apply_move` followed by
_check_and_deal_cards.  A rejected play leaves the state untouched. -/
def play_card (s : GState) (player_idx : Nat) (card : Card) (captured : List Card)
    (freshDeck : List Card) : PlayResult × GState :=
  if s.current_player ≠ player_idx then
    ({ success := false, error := some .notYourTurn }, s)
  else if card ∉ (getPlayer s player_idx).hand then
    ({ success := false, error := some .cardNotInHand }, s)
  else
    match validate_capture s card captured player_idx with
    | some e => ({ success := false, error := some e }, s)
    | none =>
      let am := apply_move s player_idx card captured
      let cd := check_and_deal_cards am.1 freshDeck
      ({ success := true, is_chkobba := am.2.1, is_haya := am.2.2,
         new_cards_dealt := cd.1 }, cd.2)

/-- GameState.next_turn: advance to the next seat modulo num_players, unless the
game has finished. -/
def next_turn (s : GState) : GState :=
  if s.is_finished then s
  else { s with current_player := (s.current_player + 1) % s.num_players }

/-- GameState.__init__(num_players) with the shuffled deck passed explicitly:
num_players fresh player records, then _setup_game. -/
def init_game (n : Nat) (deck : List Card) : GState :=
  setup_game
    { num_players := n, deck := deck, players := List.replicate n {},
      table := [], current_player := 0, round_number := 1,
      is_finished := false, winner := none, last_capturer := none }

/-- The card the timeout handler of app.start_turn_timer synthesizes on expiry:
the first card of the current player's hand (played with no captures). -/
def timeout_move (s : GState) : Option Card :=
  (getPlayer s s.current_player).hand.head?

/-- The ways app.py mutates a room's GameState: construction (create_room /
start_game / restart_game, with 2-4 players and a freshly shuffled deck), play_card
(from network input, the AI mover, or the timeout handler), next_turn, and
check_round_end's direct end_round call, guarded by "all hands empty and deck
exhausted".  Every freshly constructed deck is a permutation of the 40 cards. -/
inductive Reachable : GState → Prop where
  | init (n : Nat) (deck : List Card) :
      2 ≤ n → n ≤ 4 → deck.Perm fullDeck → Reachable (init_game n deck)
  | play (s : GState) (player_idx : Nat) (card : Card) (captured : List Card)
      (freshDeck : List Card) :
      Reachable s → freshDeck.Perm fullDeck →
      Reachable (play_card s player_idx card captured freshDeck).2
  | next (s : GState) : Reachable s → Reachable (next_turn s)
  | roundEnd (s : GState) (freshDeck : List Card) :
      Reachable s → freshDeck.Perm fullDeck →
      all_hands_empty s = true → s.deck = [] →
      Reachable (end_round s freshDeck).2

/-- The specification's conserved quantity: cards in hands, on the table, in the
round-capture piles, plus the remaining deck. -/
def total_card_count (s : GState) : Nat :=
  (s.players.map (fun p => p.hand.length)).sum + s.table.length +
    (s.players.map (fun p => p.round_captures.length)).sum + s.deck.length

/-! Concrete cards and states used to evaluate the embedded operations. -/

def cAH : Card := ⟨.A, .H⟩

def c2H : Card := ⟨.r2, .H⟩

def c3H : Card := ⟨.r3, .H⟩

def c4H : Card := ⟨.r4, .H⟩

def cKH : Card := ⟨.K, .H⟩

def cAS : Card := ⟨.A, .S⟩

def c2S : Card := ⟨.r2, .S⟩

def c3S : Card := ⟨.r3, .S⟩

def c4S : Card := ⟨.r4, .S⟩

def cKS : Card := ⟨.K, .S⟩

/-- The initial state of a 2-player game dealt from the identity permutation of the
deck: hands [KS, JS, QS] and [7S, 6S, 5S], table [4S, 3S, 2S, AS], 30 cards left. -/
def sInit2 : GState := init_game 2 fullDeck

/-- A 2-player state at a round end: seat 0 has cumulative score 10 and one chkobba
this round (worth 1 round point), in a room whose configured target score is 11. -/
def sTarget11 : GState :=
  { num_players := 2, deck := [],
    players := [{ score := 10, chkobba_count := 1 }, {}] }

/-- A 2-player state in which the timed-out seat 0 holds only the ace of Hearts
while the ace of Spades lies on the table: every hand card can capture, so the
mandatory-capture rule forbids playing without capturing. -/
def sTimeout : GState :=
  { num_players := 2, deck := [],
    players := [{ hand := [cAH] }, { hand := [c2H] }], table := [cAS] }

/-- Seat 0 may decline to capture: the 2 of Hearts matches the 2 of Spades on the
table, but the king has no possible capture. -/
def sDecline : GState :=
  { num_players := 2, deck := [],
    players := [{ hand := [c2H, cKH] }, { hand := [c3H] }], table := [c2S] }

/-- The specification's precedence example: table of values [3, 4, A] and a played
card of value 4. -/
def sPrecedence : GState :=
  { num_players := 2, deck := [],
    players := [{ hand := [c4S] }, { hand := [c2H] }], table := [c3S, c4H, cAS] }

/-- Seat 0 proposes the multi-card capture [4H, AH] for the 4 of Spades while the 4
of Hearts is a 1-to-1 match on the table and the ace of Hearts is not on the table:
both the precedence rule and the on-table rule are violated at once. -/
def sComboOffTable : GState :=
  { num_players := 2, deck := [],
    players := [{ hand := [c4S] }, { hand := [c2H] }], table := [c4H] }

/-- Seat 0 captures the table's last card (the ace of Spades) with the ace of
Hearts: a chkobba. -/
def sChkobba : GState :=
  { num_players := 2, deck := [cKH],
    players := [{ hand := [cAH, c2H] }, { hand := [c3H] }], table := [cAS] }

/-- A round-end state: seat 0 captured 21 cards this round, seat 1 the other 19. -/
def sMostCards : GState :=
  { num_players := 2, deck := [],
    players := [{ round_captures := fullDeck.take 21 },
                { round_captures := fullDeck.drop 21 }] }

/-- A 2-player state with both hands empty and a full 40-card deck, ready for the
redeal branch of _check_and_deal_cards. -/
def sRedeal : GState :=
  { num_players := 2, deck := fullDeck, players := [{}, {}], table := [c4H] }

/-! Basic facts about the deck and player-list operations. -/

theorem deckDraw_fst_length (n : Nat) (l : List Card) :
    (deckDraw n l).1.length = min n l.length := by
  simp [deckDraw]

theorem deckDraw_snd_length (n : Nat) (l : List Card) :
    (deckDraw n l).2.length = l.length - n := by
  simp [deckDraw]

theorem dealHandsAux_fst_length (ps : List Player) (deck : List Card) :
    (dealHandsAux ps deck).1.length = ps.length := by
  induction ps generalizing deck with
  | nil => rfl
  | cons p ps ih => simp [dealHandsAux, ih]

theorem dealHandsAux_snd_length (ps : List Player) (deck : List Card) :
    (dealHandsAux ps deck).2.length = deck.length - 3 * ps.length := by
  induction ps generalizing deck with
  | nil => simp [dealHandsAux]
  | cons p ps ih =>
    simp only [dealHandsAux, ih, deckDraw_snd_length, List.length_cons]
    omega

theorem dealHandsAux_hand_length (ps : List Player) (deck : List Card)
    (h : 3 * ps.length ≤ deck.length) :
    ∀ i, i < ps.length →
      ((dealHandsAux ps deck).1.getD i default).hand.length = 3 := by
  induction ps generalizing deck with
  | nil => intro i hi; simp at hi
  | cons p ps ih =>
    intro i hi
    cases i with
    | zero =>
      simp only [dealHandsAux, List.getD_cons_zero]
      simp only [deckDraw_fst_length]
      simp only [List.length_cons] at h
      omega
    | succ j =>
      simp only [dealHandsAux, List.getD_cons_succ]
      refine ih (deckDraw 3 deck).2 ?_ j (by simpa using hi)
      simp only [deckDraw_snd_length]
      simp only [List.length_cons] at h
      omega

theorem default_player_hand : (default : Player).hand = [] := rfl

theorem mem_hand_lt (s : GState) (i : Nat) (card : Card)
    (h : card ∈ (getPlayer s i).hand) : i < s.players.length := by
  by_contra hc
  push_neg at hc
  rw [getPlayer, List.getD_eq_default _ _ hc, default_player_hand] at h
  simp at h

theorem getPlayer_setPlayer_self (s : GState) (i : Nat) (p : Player)
    (h : i < s.players.length) : getPlayer (setPlayer s i p) i = p := by
  simp [getPlayer, setPlayer, List.getD_eq_getElem?_getD, List.getElem?_set, h]

theorem setPlayer_players_length (s : GState) (i : Nat) (p : Player) :
    (setPlayer s i p).players.length = s.players.length := by
  simp [setPlayer]

/-! Unfolding lemmas for play_card. -/

theorem play_card_of_validate_none (s : GState) (idx : Nat) (card : Card)
    (captured : List Card) (fresh : List Card)
    (hcur : s.current_player = idx) (hhand : card ∈ (getPlayer s idx).hand)
    (hv : validate_capture s card captured idx = none) :
    play_card s idx card captured fresh =
      ({ success := true, is_chkobba := (apply_move s idx card captured).2.1,
         is_haya := (apply_move s idx card captured).2.2,
         new_cards_dealt :=
           (check_and_deal_cards (apply_move s idx card captured).1 fresh).1 },
       (check_and_deal_cards (apply_move s idx card captured).1 fresh).2) := by
  rw [play_card, if_neg (not_not_intro hcur), if_neg (not_not_intro hhand), hv]

theorem play_card_of_validate_some (s : GState) (idx : Nat) (card : Card)
    (captured : List Card) (fresh : List Card) (e : CaptureError)
    (hcur : s.current_player = idx) (hhand : card ∈ (getPlayer s idx).hand)
    (hv : validate_capture s card captured idx = some e) :
    play_card s idx card captured fresh =
      ({ success := false, error := some e }, s) := by
  rw [play_card, if_neg (not_not_intro hcur), if_neg (not_not_intro hhand), hv]

theorem play_card_success_guards (s : GState) (idx : Nat) (card : Card)
    (captured : List Card) (fresh : List Card)
    (hsucc : (play_card s idx card captured fresh).1.success = true) :
    s.current_player = idx ∧ card ∈ (getPlayer s idx).hand ∧
      validate_capture s card captured idx = none := by
  by_cases h1 : s.current_player ≠ idx
  · rw [play_card, if_pos h1] at hsucc; simp at hsucc
  · push_neg at h1
    by_cases h2 : card ∉ (getPlayer s idx).hand
    · rw [play_card, if_neg (not_not_intro h1), if_pos h2] at hsucc; simp at hsucc
    · push_neg at h2
      cases hv : validate_capture s card captured idx with
      | some e =>
        rw [play_card_of_validate_some s idx card captured fresh e h1 h2 hv] at hsucc
        simp at hsucc
      | none => exact ⟨h1, h2, rfl⟩

/-! Characterizations of the capture rule engine. -/

theorem has_single_card_match_iff (card : Card) (table : List Card) :
    has_single_card_match card table = true ↔ ∃ t ∈ table, t.value = card.value := by
  simp [has_single_card_match, List.any_eq_true]

theorem has_non_capturing_card_iff (s : GState) (idx : Nat) :
    has_non_capturing_card s idx = true ↔
      ∃ c ∈ (getPlayer s idx).hand, find_captures c s.table = [] := by
  simp [has_non_capturing_card, List.any_eq_true, List.isEmpty_iff]

theorem mem_find_captures (card : Card) (table : List Card) (cs : List Card) :
    cs ∈ find_captures card table ↔
      ((∃ t ∈ table, t.value = card.value ∧ cs = [t]) ∨
        ((∀ t ∈ table, t.value ≠ card.value) ∧ 2 ≤ cs.length ∧ cs.Sublist table ∧
          (cs.map Card.value).sum = card.value)) := by
  by_cases hs : (table.filter (fun t => t.value == card.value)) = []
  · have hno : ∀ t ∈ table, t.value ≠ card.value := by
      intro t ht
      have := List.filter_eq_nil_iff.mp hs t ht
      simpa using this
    rw [find_captures]
    simp only [hs, List.map_nil, List.isEmpty_nil, if_pos rfl]
    constructor
    · intro h
      obtain ⟨r, hr, hcs⟩ := List.mem_flatMap.mp h
      obtain ⟨i, hi, hri⟩ := List.mem_range'.mp hr
      obtain ⟨hsub', hbeq⟩ := List.mem_filter.mp hcs
      obtain ⟨hsub, hlen⟩ := List.mem_sublistsLen.mp hsub'
      refine Or.inr ⟨hno, by omega, hsub, by simpa using hbeq⟩
    · rintro (⟨t, ht, hv, rfl⟩ | ⟨_, h2, hsub, hsum⟩)
      · exact absurd hv (hno t ht)
      · refine List.mem_flatMap.mpr ⟨cs.length, ?_, ?_⟩
        · refine List.mem_range'.mpr ⟨cs.length - 2, ?_, by omega⟩
          have := hsub.length_le
          omega
        · exact List.mem_filter.mpr
            ⟨List.mem_sublistsLen.mpr ⟨hsub, rfl⟩, by simpa using hsum⟩
  · rw [find_captures]
    have hne : ((table.filter (fun t => t.value == card.value)).map
        (fun t => [t])).isEmpty = false := by
      simp [List.isEmpty_iff, hs]
    simp only [hne, if_neg Bool.false_ne_true]
    constructor
    · intro h
      obtain ⟨t, ht, rfl⟩ := List.mem_map.mp h
      obtain ⟨ht', hbeq⟩ := List.mem_filter.mp ht
      exact Or.inl ⟨t, ht', by simpa using hbeq, rfl⟩
    · rintro (⟨t, ht, hv, rfl⟩ | ⟨hno, _, _, _⟩)
      · exact List.mem_map.mpr ⟨t, List.mem_filter.mpr ⟨ht, by simpa using hv⟩, rfl⟩
      · obtain ⟨t, ht⟩ := List.exists_mem_of_ne_nil _ hs
        obtain ⟨ht', hbeq⟩ := List.mem_filter.mp ht
        exact absurd (by simpa using hbeq) (hno t ht')

theorem validate_empty_none_iff (s : GState) (card : Card) (idx : Nat) :
    (validate_capture s card [] idx = none ↔
      (find_captures card s.table = [] ∨ has_non_capturing_card s idx = true)) ∧
    (validate_capture s card [] idx ≠ none →
      validate_capture s card [] idx = some CaptureError.captureMandatory) := by
  rw [validate_capture]
  by_cases h1 : find_captures card s.table = []
  · simp [h1]
  · by_cases h2 : has_non_capturing_card s idx <;> simp [h1, h2]

theorem validate_combo_not_allowed (s : GState) (card : Card) (captured : List Card)
    (idx : Nat) (hmatch : has_single_card_match card s.table = true)
    (hlen : 1 < captured.length) :
    validate_capture s card captured idx = some CaptureError.comboNotAllowed := by
  have hne : captured ≠ [] := by
    intro h; rw [h] at hlen; simp at hlen
  rw [validate_capture]
  simp [hne, hmatch, hlen]

/-- C3: a play proposing an empty capture set, by the current player with the card
in hand, succeeds if and only if either the played card has no possible capture on
the table or some card of that seat's hand has no possible capture; otherwise it is
rejected with the mandatory-capture error and the state is unchanged. -/
theorem c3_empty_capture_validation (s : GState) (idx : Nat) (card : Card)
    (fresh : List Card)
    (hcur : s.current_player = idx) (hhand : card ∈ (getPlayer s idx).hand) :
    ((play_card s idx card [] fresh).1.success = true ↔
      (find_captures card s.table = [] ∨
        ∃ c ∈ (getPlayer s idx).hand, find_captures c s.table = [])) ∧
    ((play_card s idx card [] fresh).1.success = false →
      (play_card s idx card [] fresh).1.error = some CaptureError.captureMandatory ∧
      (play_card s idx card [] fresh).2 = s) := by
  have hch := validate_empty_none_iff s card idx
  by_cases hv : validate_capture s card [] idx = none
  · rw [play_card_of_validate_none s idx card [] fresh hcur hhand hv]
    refine ⟨⟨fun _ => ?_, fun _ => rfl⟩, fun h => absurd h (by simp)⟩
    rcases hch.1.mp hv with h | h
    · exact Or.inl h
    · exact Or.inr ((has_non_capturing_card_iff s idx).mp h)
  · have hv' := hch.2 hv
    rw [play_card_of_validate_some s idx card [] fresh _ hcur hhand hv']
    refine ⟨⟨fun h => absurd h (by simp), fun h => ?_⟩, fun _ => ⟨rfl, rfl⟩⟩
    rcases h with h | h
    · exact absurd (hch.1.mpr (Or.inl h)) hv
    · exact absurd (hch.1.mpr (Or.inr ((has_non_capturing_card_iff s idx).mpr h))) hv

theorem c3_witness : (play_card sDecline 0 c2H [] fullDeck).1.success = true :=
  (c3_empty_capture_validation sDecline 0 c2H fullDeck rfl (by decide)).1.mpr
    (Or.inr ⟨cKH, by decide, by decide⟩)

/-- C4: when the played card has a 1-to-1 value match on the table, find_captures
returns exactly the singleton capture sets of the matching table cards (never a
multi-card set), and every proposed capture of two or more cards is rejected with
ComboNotAllowed; when no 1-to-1 match exists, find_captures returns exactly the
sub-multisets of the table of size at least 2 whose values sum to the card's
value. -/
theorem c4_capture_precedence (card : Card) (table : List Card) :
    (∀ cs, cs ∈ find_captures card table ↔
      ((∃ t ∈ table, t.value = card.value ∧ cs = [t]) ∨
        ((∀ t ∈ table, t.value ≠ card.value) ∧ 2 ≤ cs.length ∧ cs.Sublist table ∧
          (cs.map Card.value).sum = card.value))) ∧
    (∀ (s : GState) (idx : Nat) (captured : List Card),
      s.table = table → (∃ t ∈ table, t.value = card.value) → 2 ≤ captured.length →
      validate_capture s card captured idx = some CaptureError.comboNotAllowed) := by
  refine ⟨fun cs => mem_find_captures card table cs, ?_⟩
  intro s idx captured hts hm hlen
  rw [← hts] at hm
  exact validate_combo_not_allowed s card captured idx
    ((has_single_card_match_iff card s.table).mpr hm) (by omega)

theorem c4_witness :
    validate_capture sPrecedence c4S [c3S, cAS] 0 =
      some CaptureError.comboNotAllowed :=
  (c4_capture_precedence c4S [c3S, c4H, cAS]).2 sPrecedence 0 [c3S, cAS] rfl
    ⟨c4H, by decide, by decide⟩ (by decide)

/-- C5, counterexample: a multi-card capture that both violates the 1-to-1
precedence rule and contains a card absent from the table is rejected with
ComboNotAllowed, not with CardNotOnTable as the claim states. -/
theorem c5_counterexample :
    has_single_card_match c4S sComboOffTable.table = true ∧
    cAH ∉ sComboOffTable.table ∧
    (play_card sComboOffTable 0 c4S [c4H, cAH] fullDeck).1.error =
      some CaptureError.comboNotAllowed := by
  refine ⟨by decide, by decide, by decide⟩

/-- C5, amended: for a non-empty proposed capture set by the current player with
the card in hand, the rejection checks are applied with the ComboNotAllowed check
first: a multi-card capture in the presence of a 1-to-1 match yields
ComboNotAllowed; only past that check does a captured card absent from the table
(the first one, in proposal order) yield CardNotOnTable, and then a value-sum
mismatch yield CaptureSumMismatch. -/
theorem c5_rejection_order (s : GState) (idx : Nat) (card : Card)
    (captured : List Card) (fresh : List Card)
    (hcur : s.current_player = idx) (hhand : card ∈ (getPlayer s idx).hand)
    (hne : captured ≠ []) :
    (has_single_card_match card s.table = true → 1 < captured.length →
      (play_card s idx card captured fresh).1.error =
        some CaptureError.comboNotAllowed) ∧
    ((has_single_card_match card s.table = true → captured.length ≤ 1) →
      ∀ c, captured.find? (fun x => !((s.table.map Card.code).contains x.code))
          = some c →
      (play_card s idx card captured fresh).1.error =
        some (CaptureError.cardNotOnTable c)) ∧
    ((has_single_card_match card s.table = true → captured.length ≤ 1) →
      (∀ c ∈ captured, c.code ∈ s.table.map Card.code) →
      (captured.map Card.value).sum ≠ card.value →
      (play_card s idx card captured fresh).1.error =
        some CaptureError.captureSumMismatch) := by
  refine ⟨?_, ?_, ?_⟩
  · intro hm hl
    rw [play_card_of_validate_some s idx card captured fresh _ hcur hhand
      (validate_combo_not_allowed s card captured idx hm hl)]
  · intro hcomb c hfind
    have hnc : ¬(has_single_card_match card s.table = true ∧ 1 < captured.length) := by
      rintro ⟨a, b⟩; have := hcomb a; omega
    have hv : validate_capture s card captured idx =
        some (CaptureError.cardNotOnTable c) := by
      rw [validate_capture, if_neg hne, if_neg hnc]
      simp only [hfind]
    rw [play_card_of_validate_some s idx card captured fresh _ hcur hhand hv]
  · intro hcomb hall hsum
    have hnc : ¬(has_single_card_match card s.table = true ∧ 1 < captured.length) := by
      rintro ⟨a, b⟩; have := hcomb a; omega
    have hfind : captured.find? (fun x => !((s.table.map Card.code).contains x.code))
        = none := by
      rw [List.find?_eq_none]
      intro x hx
      simp [List.elem_iff, hall x hx]
    have hv : validate_capture s card captured idx =
        some CaptureError.captureSumMismatch := by
      rw [validate_capture, if_neg hne, if_neg hnc]
      simp only [hfind]
      rw [if_pos hsum]
    rw [play_card_of_validate_some s idx card captured fresh _ hcur hhand hv]

theorem c5_witness :
    (play_card sComboOffTable 0 c4S [c4H, c4H] fullDeck).1.error =
      some CaptureError.comboNotAllowed :=
  (c5_rejection_order sComboOffTable 0 c4S [c4H, c4H] fullDeck rfl (by decide)
    (by decide)).1 (by decide) (by decide)

/-! Facts about apply_move used for the chkobba claim. -/

theorem apply_move_chkobba_flag (s : GState) (idx : Nat) (card : Card)
    (captured : List Card) :
    (apply_move s idx card captured).2.1 =
      decide (captured.foldl (fun t c => t.erase c) s.table = [] ∧ captured ≠ []) := by
  by_cases h : captured = []
  · subst h
    simp [apply_move]
  · simp [apply_move, setPlayer, h]

theorem apply_move_chkobba_count (s : GState) (idx : Nat) (card : Card)
    (captured : List Card) (hlt : idx < s.players.length) :
    (getPlayer (apply_move s idx card captured).1 idx).chkobba_count =
      (getPlayer s idx).chkobba_count +
        (if captured.foldl (fun t c => t.erase c) s.table = [] ∧ captured ≠ []
         then 1 else 0) := by
  by_cases h : captured = []
  · subst h
    simp [apply_move, getPlayer, setPlayer, List.getD_eq_getElem?_getD,
      List.getElem?_set, hlt]
  · by_cases hc2 : captured.foldl (fun t c => t.erase c) s.table = [] <;>
      simp [apply_move, getPlayer, setPlayer, h, hc2, List.getD_eq_getElem?_getD,
        List.getElem?_set, List.length_set, hlt]

/-- C6: a successfully applied play is flagged as a chkobba exactly when the
capture set is non-empty and removing it empties the table, and exactly then the
playing seat's chkobba counter is incremented by 1 by the play's mutation (before
the redeal check); in particular a card played with no captures onto an empty
table neither sets the flag nor touches the counter. -/
theorem c6_chkobba_flag (s : GState) (idx : Nat) (card : Card) (captured : List Card)
    (fresh : List Card)
    (hsucc : (play_card s idx card captured fresh).1.success = true) :
    ((play_card s idx card captured fresh).1.is_chkobba = true ↔
      (captured ≠ [] ∧ captured.foldl (fun t c => t.erase c) s.table = [])) ∧
    (getPlayer (apply_move s idx card captured).1 idx).chkobba_count =
      (getPlayer s idx).chkobba_count +
        (if captured ≠ [] ∧ captured.foldl (fun t c => t.erase c) s.table = []
         then 1 else 0) := by
  obtain ⟨hcur, hhand, hv⟩ := play_card_success_guards s idx card captured fresh hsucc
  have hlt := mem_hand_lt s idx card hhand
  constructor
  · rw [play_card_of_validate_none s idx card captured fresh hcur hhand hv,
      apply_move_chkobba_flag]
    simp only [decide_eq_true_eq]
    exact And.comm
  · rw [apply_move_chkobba_count s idx card captured hlt,
      if_congr (Iff.comm.mp And.comm) rfl rfl]

theorem c6_witness :
    (play_card sChkobba 0 cAH [cAS] fullDeck).1.is_chkobba = true ∧
    (getPlayer (apply_move sChkobba 0 cAH [cAS]).1 0).chkobba_count =
      (getPlayer sChkobba 0).chkobba_count + 1 := by
  have h := c6_chkobba_flag sChkobba 0 cAH [cAS] fullDeck (by decide)
  refine ⟨h.1.mpr ⟨by decide, by decide⟩, ?_⟩
  rw [h.2, if_pos ⟨by decide, by decide⟩]

/-! Facts about list maxima and the winners filter, used for the scoring claim. -/

theorem range_map_getD (f : Nat → Nat) (n j : Nat) (hj : j < n) :
    ((List.range n).map f).getD j 0 = f j := by
  simp [List.getD_eq_getElem?_getD, List.getElem?_map, List.getElem?_range hj]

theorem le_foldl_max (l : List Nat) (a : Nat) : a ≤ l.foldl max a := by
  induction l generalizing a with
  | nil => exact Nat.le_refl a
  | cons b t ih => exact Nat.le_trans (Nat.le_max_left a b) (ih (max a b))

theorem mem_le_foldl_max (l : List Nat) (a x : Nat) (hx : x ∈ l) :
    x ≤ l.foldl max a := by
  induction l generalizing a with
  | nil => simp at hx
  | cons b t ih =>
    rcases List.mem_cons.mp hx with rfl | hx'
    · exact Nat.le_trans (Nat.le_max_right a x) (le_foldl_max t (max a x))
    · exact ih (max a b) hx'

theorem foldl_max_le (l : List Nat) (a b : Nat) (ha : a ≤ b)
    (h : ∀ x ∈ l, x ≤ b) : l.foldl max a ≤ b := by
  induction l generalizing a with
  | nil => exact ha
  | cons c t ih =>
    exact ih (max a c) (Nat.max_le.mpr ⟨ha, h c (List.mem_cons_self c t)⟩)
      (fun x hx => h x (List.mem_cons_of_mem c hx))

theorem nodup_eq_singleton (l : List Nat) (a : Nat) (hnd : l.Nodup)
    (hmem : a ∈ l) (hall : ∀ x ∈ l, x = a) : l = [a] := by
  cases l with
  | nil => simp at hmem
  | cons b t =>
    have hb : b = a := hall b (List.mem_cons_self b t)
    subst hb
    have ht : t = [] := by
      cases t with
      | nil => rfl
      | cons c u =>
        have hc : c = b := hall c (by simp)
        rw [List.nodup_cons] at hnd
        exact absurd (hc ▸ List.mem_cons_self c u) hnd.1
    rw [ht]

theorem set_replicate_getD (n w i : Nat) (hw : w < n) :
    ((List.replicate n (0 : Nat)).set w 1).getD i 0 = if w = i then 1 else 0 := by
  by_cases hwi : w = i
  · subst hwi
    simp [List.getD_eq_getElem?_getD, List.getElem?_set, List.getElem?_replicate,
      List.length_replicate, hw]
  · by_cases hi : i < n <;>
      simp [List.getD_eq_getElem?_getD, List.getElem?_set, List.getElem?_replicate,
        List.length_replicate, hwi, hi]

/-- C7: in round scoring, a seat receives the most-cards point exactly when its
round-captured-card count is at least 21 and is strictly larger than every other
seat's count; on any tie for the maximum, or a maximum below 21, no seat receives
the point. -/
theorem c7_most_cards_point (s : GState) (i : Nat) (hi : i < s.num_players) :
    (most_cards_award s).getD i 0 = 1 ↔
      (21 ≤ round_capture_count s i ∧
        ∀ j, j < s.num_players → j ≠ i →
          round_capture_count s j < round_capture_count s i) := by
  have hclen : ((List.range s.num_players).map (round_capture_count s)).length
      = s.num_players := by simp
  set f := round_capture_count s with hf
  set counts := (List.range s.num_players).map f with hcounts
  set maxv := counts.foldl max 0 with hmaxv
  set winners := (List.range counts.length).filter (fun j => counts.getD j 0 == maxv)
    with hwinners
  have hwin_mem : ∀ j, j ∈ winners ↔ j < s.num_players ∧ f j = maxv := by
    intro j
    rw [hwinners]
    constructor
    · intro hj
      obtain ⟨hjr, hjb⟩ := List.mem_filter.mp hj
      have hjn : j < s.num_players := by
        rw [List.mem_range, hclen] at hjr; exact hjr
      rw [range_map_getD f s.num_players j hjn] at hjb
      exact ⟨hjn, by simpa using hjb⟩
    · rintro ⟨hjn, hje⟩
      refine List.mem_filter.mpr ⟨by rw [List.mem_range, hclen]; exact hjn, ?_⟩
      rw [range_map_getD f s.num_players j hjn]
      simpa using hje
  have hle : ∀ j, j < s.num_players → f j ≤ maxv := by
    intro j hj
    exact mem_le_foldl_max counts 0 (f j)
      (by rw [hcounts]; exact List.mem_map_of_mem f (List.mem_range.mpr hj))
  have hwnd : winners.Nodup := by
    rw [hwinners]; exact (List.nodup_range counts.length).filter _
  rw [most_cards_award]
  rw [← hcounts, ← hmaxv, ← hwinners]
  by_cases hcond : winners.length = 1 ∧ 21 ≤ counts.getD (winners.getD 0 0) 0
  · obtain ⟨h1, h21⟩ := hcond
    obtain ⟨w, hw⟩ := List.length_eq_one.mp h1
    have hwmem : w ∈ winners := by rw [hw]; simp
    obtain ⟨hwn, hwe⟩ := (hwin_mem w).mp hwmem
    have hget0 : winners.getD 0 0 = w := by rw [hw]; rfl
    rw [if_pos ⟨h1, h21⟩, hget0, set_replicate_getD s.num_players w i hwn]
    rw [hget0, range_map_getD f s.num_players w hwn] at h21
    constructor
    · intro hone
      have hwi : w = i := by
        by_contra hne
        rw [if_neg hne] at hone
        exact absurd hone (by omega)
      subst hwi
      refine ⟨h21, ?_⟩
      intro j hj hji
      rcases Nat.lt_or_ge (f j) (f w) with hlt | hge
      · exact hlt
      · have hje : f j = maxv := Nat.le_antisymm (hle j hj) (hwe ▸ hge)
        have : j ∈ winners := (hwin_mem j).mpr ⟨hj, hje⟩
        rw [hw] at this
        simp at this
        exact absurd this hji
    · rintro ⟨hi21, hstrict⟩
      have hwi : w = i := by
        by_contra hne
        have hlt := hstrict w hwn hne
        have : f i ≤ maxv := hle i hi
        omega
      rw [if_pos hwi]
  · rw [if_neg hcond, List.getD_eq_getElem?_getD, List.getElem?_replicate]
    have : (if i < s.num_players then some 0 else none).getD 0 = 0 := by
      rw [if_pos hi]; rfl
    rw [this]
    constructor
    · intro h; exact absurd h (by omega)
    · rintro ⟨hi21, hstrict⟩
      exfalso
      have hie : f i = maxv := by
        refine Nat.le_antisymm (hle i hi) ?_
        rw [hmaxv]
        refine foldl_max_le counts 0 (f i) (Nat.zero_le _) ?_
        intro x hx
        rw [hcounts] at hx
        obtain ⟨j, hj, rfl⟩ := List.mem_map.mp hx
        rw [List.mem_range] at hj
        rcases eq_or_ne j i with rfl | hne
        · exact Nat.le_refl _
        · exact Nat.le_of_lt (hstrict j hj hne)
      have hiw : i ∈ winners := (hwin_mem i).mpr ⟨hi, hie⟩
      have hall : ∀ x ∈ winners, x = i := by
        intro x hx
        obtain ⟨hxn, hxe⟩ := (hwin_mem x).mp hx
        by_contra hne
        have := hstrict x hxn hne
        omega
      have hweq : winners = [i] := nodup_eq_singleton winners i hwnd hiw hall
      refine hcond ⟨by rw [hweq]; rfl, ?_⟩
      have hget0 : winners.getD 0 0 = i := by rw [hweq]; rfl
      rw [hget0, range_map_getD f s.num_players i hi]
      exact hi21

theorem c7_witness : (most_cards_award sMostCards).getD 0 0 = 1 :=
  (c7_most_cards_point sMostCards 0 (by decide)).mpr ⟨by decide, by decide⟩

/-- C9: the redeal check after a play is a no-op when some hand is non-empty;
when every hand is empty and the deck holds at least 3 cards per player it deals
exactly 3 cards to every seat, leaves the table untouched and consumes
3 times num_players cards from the deck; when every hand is empty and the deck is
exhausted it runs round-end scoring instead of dealing. -/
theorem c9_check_and_redeal (s : GState) (fresh : List Card)
    (h2 : 2 ≤ s.num_players) (hlen : s.players.length = s.num_players) :
    (all_hands_empty s = false → check_and_deal_cards s fresh = (false, s)) ∧
    (all_hands_empty s = true → 3 * s.num_players ≤ s.deck.length →
      (check_and_deal_cards s fresh).1 = true ∧
      (check_and_deal_cards s fresh).2.table = s.table ∧
      (∀ i, i < s.num_players →
        (getPlayer (check_and_deal_cards s fresh).2 i).hand.length = 3) ∧
      (check_and_deal_cards s fresh).2.deck.length =
        s.deck.length - 3 * s.num_players) ∧
    (all_hands_empty s = true → s.deck = [] →
      check_and_deal_cards s fresh = (false, (end_round s fresh).2)) := by
  refine ⟨?_, ?_, ?_⟩
  · intro h
    rw [check_and_deal_cards, if_neg (by rw [h]; exact Bool.false_ne_true)]
  · intro hemp hdeck
    have hpos : 0 < s.deck.length := by omega
    rw [check_and_deal_cards, if_pos hemp, if_pos hpos]
    have hguard : s.num_players * 3 ≤ s.deck.length := by omega
    rw [deal_new_hands, if_pos hguard]
    refine ⟨rfl, rfl, ?_, ?_⟩
    · intro i hin
      have hh : 3 * s.players.length ≤ s.deck.length := by omega
      exact dealHandsAux_hand_length s.players s.deck hh i (by omega)
    · show (dealHandsAux s.players s.deck).2.length = _
      rw [dealHandsAux_snd_length, hlen]
  · intro hemp hdeck
    rw [check_and_deal_cards, if_pos hemp,
      if_neg (by rw [hdeck]; exact Nat.lt_irrefl 0)]

theorem c9_witness :
    (check_and_deal_cards sRedeal fullDeck).1 = true ∧
    (check_and_deal_cards sRedeal fullDeck).2.table = sRedeal.table ∧
    (getPlayer (check_and_deal_cards sRedeal fullDeck).2 0).hand.length = 3 ∧
    (getPlayer (check_and_deal_cards sRedeal fullDeck).2 1).hand.length = 3 ∧
    (check_and_deal_cards sRedeal fullDeck).2.deck.length =
      sRedeal.deck.length - 3 * 2 := by
  have h := (c9_check_and_redeal sRedeal fullDeck (by decide) (by decide)).2.1
    (by decide) (by decide)
  exact ⟨h.1, h.2.1, h.2.2.1 0 (by decide), h.2.2.1 1 (by decide), h.2.2.2⟩

/-! Preservation of the player count and of the deck-size divisibility invariant by
every operation, leading to the reachable-state invariant. -/

theorem setup_game_fields (s : GState) :
    (setup_game s).num_players = s.num_players ∧
    (setup_game s).players.length = s.players.length ∧
    (setup_game s).deck.length = s.deck.length - 3 * s.players.length - 4 := by
  refine ⟨rfl, ?_, ?_⟩
  · show (dealHandsAux s.players s.deck).1.length = _
    rw [dealHandsAux_fst_length]
  · show (deckDraw 4 (dealHandsAux s.players s.deck).2).2.length = _
    rw [deckDraw_snd_length, dealHandsAux_snd_length]

theorem apply_move_fields (s : GState) (idx : Nat) (card : Card)
    (captured : List Card) :
    (apply_move s idx card captured).1.num_players = s.num_players ∧
    (apply_move s idx card captured).1.players.length = s.players.length ∧
    (apply_move s idx card captured).1.deck = s.deck := by
  rw [apply_move]
  by_cases h : captured = []
  · simp [h, setPlayer, List.length_set]
  · simp [h, setPlayer, List.length_set]
    split <;> simp [setPlayer, List.length_set]

theorem deal_new_hands_fields (s : GState) :
    (deal_new_hands s).2.num_players = s.num_players ∧
    (deal_new_hands s).2.players.length = s.players.length ∧
    ((deal_new_hands s).2.deck.length = s.deck.length ∨
      (deal_new_hands s).2.deck.length = s.deck.length - 3 * s.players.length) := by
  rw [deal_new_hands]
  by_cases h : s.num_players * 3 ≤ s.deck.length
  · rw [if_pos h]
    refine ⟨rfl, ?_, Or.inr ?_⟩
    · show (dealHandsAux s.players s.deck).1.length = _
      rw [dealHandsAux_fst_length]
    · show (dealHandsAux s.players s.deck).2.length = _
      rw [dealHandsAux_snd_length]
  · rw [if_neg h]
    exact ⟨rfl, rfl, Or.inl rfl⟩

theorem foldl_pres_fields (g : GState → Nat → GState)
    (hg : ∀ st b, (g st b).num_players = st.num_players ∧
      (g st b).players.length = st.players.length ∧ (g st b).deck = st.deck) :
    ∀ (l : List Nat) (st : GState),
      ((l.foldl g st).num_players = st.num_players ∧
       (l.foldl g st).players.length = st.players.length ∧
       (l.foldl g st).deck = st.deck) := by
  intro l
  induction l with
  | nil => intro st; exact ⟨rfl, rfl, rfl⟩
  | cons a t ih =>
    intro st
    rw [List.foldl_cons]
    obtain ⟨h1, h2, h3⟩ := ih (g st a)
    obtain ⟨g1, g2, g3⟩ := hg st a
    exact ⟨h1.trans g1, h2.trans g2, h3.trans g3⟩

theorem add_round_scores_fields (s : GState) (scores : List Nat) :
    (add_round_scores s scores).num_players = s.num_players ∧
    (add_round_scores s scores).players.length = s.players.length ∧
    (add_round_scores s scores).deck = s.deck := by
  refine foldl_pres_fields _ ?_ (List.range s.num_players) s
  intro st b
  dsimp only
  split <;> simp [setPlayer, List.length_set]

theorem award_table_fields (s : GState) :
    (award_table_to_last_capturer s).num_players = s.num_players ∧
    (award_table_to_last_capturer s).players.length = s.players.length ∧
    (award_table_to_last_capturer s).deck = s.deck := by
  rw [award_table_to_last_capturer]
  cases hl : s.last_capturer with
  | none => exact ⟨rfl, rfl, rfl⟩
  | some lc =>
    dsimp only
    by_cases h : s.table ≠ []
    · rw [if_pos h]
      exact ⟨rfl, by simp [setPlayer], rfl⟩
    · rw [if_neg h]
      exact ⟨rfl, rfl, rfl⟩

theorem end_round_invariant (s : GState) (fresh : List Card)
    (h2 : 2 ≤ s.num_players) (h4 : s.num_players ≤ 4)
    (hlen : s.players.length = s.num_players)
    (hfresh : fresh.length = 40) :
    (end_round s fresh).2.num_players = s.num_players ∧
    (end_round s fresh).2.players.length = s.num_players ∧
    ((end_round s fresh).2.deck = s.deck ∨
      (end_round s fresh).2.deck.length = 36 - 3 * s.num_players) := by
  rw [end_round]
  obtain ⟨a1, a2, a3⟩ := award_table_fields s
  obtain ⟨b1, b2, b3⟩ :=
    add_round_scores_fields (award_table_to_last_capturer s)
      (calculate_round_scores (award_table_to_last_capturer s))
  set s2 := add_round_scores (award_table_to_last_capturer s)
    (calculate_round_scores (award_table_to_last_capturer s)) with hs2
  by_cases hfin : s2.is_finished
  · rw [if_pos hfin]
    exact ⟨b1.trans a1, by rw [b2, a2, hlen], Or.inl (b3.trans a3)⟩
  · rw [if_neg hfin]
    obtain ⟨c1, c2, c3⟩ := setup_game_fields { s2 with
      round_number := s2.round_number + 1, table := [], last_capturer := none,
      deck := fresh,
      players := s2.players.map (fun p =>
        { p with hand := [], round_captures := [], chkobba_count := 0 }) }
    rw [reset_for_next_round]
    refine ⟨c1.trans (b1.trans a1), ?_, Or.inr ?_⟩
    · rw [c2]
      simp only [List.length_map]
      rw [b2, a2, hlen]
    · rw [c3]
      simp only [List.length_map, hfresh]
      rw [b2, a2, hlen]
      omega

theorem check_and_deal_invariant (s : GState) (fresh : List Card)
    (h2 : 2 ≤ s.num_players) (h4 : s.num_players ≤ 4)
    (hlen : s.players.length = s.num_players)
    (hdvd : (3 * s.num_players) ∣ s.deck.length)
    (hfresh : fresh.length = 40) :
    (check_and_deal_cards s fresh).2.num_players = s.num_players ∧
    (check_and_deal_cards s fresh).2.players.length = s.num_players ∧
    (3 * s.num_players) ∣ (check_and_deal_cards s fresh).2.deck.length := by
  rw [check_and_deal_cards]
  by_cases hemp : all_hands_empty s = true
  · rw [if_pos hemp]
    by_cases hpos : 0 < s.deck.length
    · rw [if_pos hpos]
      obtain ⟨d1, d2, d3⟩ := deal_new_hands_fields s
      refine ⟨d1, by rw [d2, hlen], ?_⟩
      rcases d3 with h | h <;> rw [h]
      · exact hdvd
      · rw [hlen]
        exact Nat.dvd_sub' hdvd (dvd_refl _)
    · rw [if_neg hpos]
      obtain ⟨e1, e2, e3⟩ := end_round_invariant s fresh h2 h4 hlen hfresh
      refine ⟨e1, e2, ?_⟩
      rcases e3 with h | h <;> rw [h]
      · exact hdvd
      · have hcase : s.num_players = 2 ∨ s.num_players = 3 ∨ s.num_players = 4 := by
          omega
        rcases hcase with hc | hc | hc <;> rw [hc] <;> decide
  · rw [if_neg hemp]
    exact ⟨rfl, hlen, hdvd⟩

theorem init_game_fields (n : Nat) (deck : List Card) :
    (init_game n deck).num_players = n ∧
    (init_game n deck).players.length = n ∧
    (init_game n deck).deck.length = deck.length - 3 * n - 4 := by
  rw [init_game]
  obtain ⟨c1, c2, c3⟩ := setup_game_fields
    { num_players := n, deck := deck, players := List.replicate n {},
      table := [], current_player := 0, round_number := 1,
      is_finished := false, winner := none, last_capturer := none }
  refine ⟨c1, ?_, ?_⟩
  · rw [c2]; simp
  · rw [c3]; simp

theorem play_card_snd_cases (s : GState) (idx : Nat) (card : Card)
    (captured : List Card) (fresh : List Card) :
    (play_card s idx card captured fresh).2 = s ∨
    (play_card s idx card captured fresh).2 =
      (check_and_deal_cards (apply_move s idx card captured).1 fresh).2 := by
  rw [play_card]
  by_cases h1 : s.current_player ≠ idx
  · rw [if_pos h1]; exact Or.inl rfl
  · rw [if_neg h1]
    by_cases h2 : card ∉ (getPlayer s idx).hand
    · rw [if_pos h2]; exact Or.inl rfl
    · rw [if_neg h2]
      cases hv : validate_capture s card captured idx with
      | some e => exact Or.inl rfl
      | none => exact Or.inr rfl

theorem next_turn_fields (s : GState) :
    (next_turn s).num_players = s.num_players ∧
    (next_turn s).players.length = s.players.length ∧
    (next_turn s).deck = s.deck := by
  rw [next_turn]
  by_cases h : s.is_finished <;> simp [h]

theorem reachable_invariant (s : GState) (h : Reachable s) :
    2 ≤ s.num_players ∧ s.num_players ≤ 4 ∧ s.players.length = s.num_players ∧
      (3 * s.num_players) ∣ s.deck.length := by
  induction h with
  | init n deck h2 h4 hperm =>
    obtain ⟨f1, f2, f3⟩ := init_game_fields n deck
    rw [f1, f2, f3, hperm.length_eq]
    refine ⟨h2, h4, rfl, ?_⟩
    have hfd : fullDeck.length = 40 := rfl
    rw [hfd]
    have hcase : n = 2 ∨ n = 3 ∨ n = 4 := by omega
    rcases hcase with hc | hc | hc <;> rw [hc] <;> decide
  | play s idx card captured fresh hs hperm ih =>
    obtain ⟨h2, h4, hlen, hdvd⟩ := ih
    rcases play_card_snd_cases s idx card captured fresh with hc | hc <;> rw [hc]
    · exact ⟨h2, h4, hlen, hdvd⟩
    · obtain ⟨a1, a2, a3⟩ := apply_move_fields s idx card captured
      have hfr : fresh.length = 40 := by rw [hperm.length_eq]; rfl
      obtain ⟨k1, k2, k3⟩ :=
        check_and_deal_invariant (apply_move s idx card captured).1 fresh
          (by rw [a1]; exact h2) (by rw [a1]; exact h4)
          (by rw [a2, a1, hlen]) (by rw [a1, a3]; exact hdvd) hfr
      rw [k1, a1]
      refine ⟨h2, h4, by rw [k2, a1], ?_⟩
      have := k3
      rw [a1] at this
      exact this
  | next s hs ih =>
    obtain ⟨h2, h4, hlen, hdvd⟩ := ih
    obtain ⟨n1, n2, n3⟩ := next_turn_fields s
    rw [n1, n2, n3]
    exact ⟨h2, h4, hlen, hdvd⟩
  | roundEnd s fresh hs hperm hemp hdeck ih =>
    obtain ⟨h2, h4, hlen, hdvd⟩ := ih
    have hfr : fresh.length = 40 := by rw [hperm.length_eq]; rfl
    obtain ⟨e1, e2, e3⟩ := end_round_invariant s fresh h2 h4 hlen hfr
    rw [e1, e2]
    refine ⟨h2, h4, rfl, ?_⟩
    rcases e3 with hc | hc <;> rw [hc]
    · exact hdvd
    · have hcase : s.num_players = 2 ∨ s.num_players = 3 ∨ s.num_players = 4 := by
        omega
      rcases hcase with hcc | hcc | hcc <;> rw [hcc] <;> decide

/-- C10: in every reachable state the remaining deck size is a multiple of
3 times num_players (36 minus 3 times num_players after setup, decreasing by
exactly 3 times num_players per redeal), so a state in which all hands are empty
while the deck holds more than zero but fewer than 3 times num_players cards — in
which the redeal check would neither deal nor end the round — is unreachable. -/
theorem c10_deck_multiple_invariant (s : GState) (h : Reachable s) :
    s.deck.length % (3 * s.num_players) = 0 ∧
    (3 * s.num_players ≤ s.deck.length →
      (deal_new_hands s).2.deck.length = s.deck.length - 3 * s.num_players) ∧
    ¬(all_hands_empty s = true ∧ 0 < s.deck.length ∧
      s.deck.length < 3 * s.num_players) ∧
    (∀ n deck, 2 ≤ n → n ≤ 4 → deck.length = 40 →
      (init_game n deck).deck.length = 36 - 3 * n) := by
  obtain ⟨h2, h4, hlen, hdvd⟩ := reachable_invariant s h
  refine ⟨Nat.dvd_iff_mod_eq_zero.mp hdvd, ?_, ?_, ?_⟩
  · intro hge
    rw [deal_new_hands, if_pos (by omega)]
    show (dealHandsAux s.players s.deck).2.length = _
    rw [dealHandsAux_snd_length, hlen]
  · rintro ⟨hemp, hpos, hlt⟩
    have := Nat.le_of_dvd hpos hdvd
    omega
  · intro n deck hn2 hn4 hd40
    obtain ⟨f1, f2, f3⟩ := init_game_fields n deck
    rw [f3, hd40]
    omega

theorem c10_witness :
    sInit2.deck.length % (3 * sInit2.num_players) = 0 ∧
    ¬(all_hands_empty sInit2 = true ∧ 0 < sInit2.deck.length ∧
      sInit2.deck.length < 3 * sInit2.num_players) ∧
    (init_game 2 fullDeck).deck.length = 36 - 3 * 2 := by
  have h := c10_deck_multiple_invariant sInit2
    (Reachable.init 2 fullDeck (by decide) (by decide) (List.Perm.refl _))
  exact ⟨h.1, h.2.2.1, h.2.2.2 2 fullDeck (by decide) (by decide) rfl⟩

/-- C1: end_round compares cumulative scores against the fixed constant
Config.WINNING_SCORE = 21, not against the room's configured target score: in a
room configured with the legal target 11, a seat whose cumulative score reaches 11
does not end the game (evaluated here: seat 0 moves from 10 to 11 round points and
the state remains unfinished with no winner). -/
theorem c1_fixed_constant_not_room_target :
    WINNING_SCORE = 21 ∧ 11 ∈ allowed_target_scores ∧
    (end_round sTarget11 fullDeck).1 = [1, 0] ∧
    (getPlayer (end_round sTarget11 fullDeck).2 0).score = 11 ∧
    (end_round sTarget11 fullDeck).2.is_finished = false ∧
    (end_round sTarget11 fullDeck).2.winner = none :=
  ⟨rfl, by decide, by decide, by decide, by decide, by decide⟩

/-- C2: the timeout handler's synthesized move — first hand card, no captures —
can fail validation: when every card of the timed-out seat's hand can capture, the
mandatory-capture rule rejects it, the state (including the current player) is
unchanged, and the turn does not advance. -/
theorem c2_timeout_autoplay_rejected :
    timeout_move sTimeout = some cAH ∧
    (play_card sTimeout 0 cAH [] fullDeck).1.success = false ∧
    (play_card sTimeout 0 cAH [] fullDeck).1.error =
      some CaptureError.captureMandatory ∧
    (play_card sTimeout 0 cAH [] fullDeck).2 = sTimeout ∧
    (play_card sTimeout 0 cAH [] fullDeck).2.current_player =
      sTimeout.current_player :=
  ⟨rfl, by decide, by decide, by decide, by decide⟩

/-- C8: the 40-card conservation fails on the very first capturing play of a
reachable game: the played card is added to no hand, pile, table or deck, so the
total card count drops from 40 to 39 (seat 0 plays the king of Spades, capturing
the whole table of the unshuffled 2-player deal). -/
theorem c8_card_conservation_violated :
    Reachable (play_card sInit2 0 cKS [c4S, c3S, c2S, cAS] fullDeck).2 ∧
    total_card_count sInit2 = 40 ∧
    (play_card sInit2 0 cKS [c4S, c3S, c2S, cAS] fullDeck).1.success = true ∧
    total_card_count (play_card sInit2 0 cKS [c4S, c3S, c2S, cAS] fullDeck).2 = 39 ∧
    (∀ p ∈ (play_card sInit2 0 cKS [c4S, c3S, c2S, cAS] fullDeck).2.players,
      cKS ∉ p.hand ∧ cKS ∉ p.round_captures ∧ cKS ∉ p.captured_cards) ∧
    cKS ∉ (play_card sInit2 0 cKS [c4S, c3S, c2S, cAS] fullDeck).2.table ∧
    cKS ∉ (play_card sInit2 0 cKS [c4S, c3S, c2S, cAS] fullDeck).2.deck :=
  ⟨Reachable.play _ _ _ _ _
      (Reachable.init 2 fullDeck (by decide) (by decide) (List.Perm.refl _))
      (List.Perm.refl _),
    by decide, by decide, by decide, by decide, by decide, by decide⟩

end Chkobba
